import Mathlib

/-! Verification development for the property-graph model: JSON property bags,
typed nodes and edges, the directional relationship resolver, and the
direct/transitive reference traversal.  The definitions mirror the Python
source in models.py (duplicated in p1/graph.py). -/

deriving instance DecidableEq for Except

namespace Models

/-- Association-list update mirroring Python dict assignment `d[key] = value`:
the key is bound to the new value and any previous binding for it is dropped. -/
def dictSet {V : Type} (d : List (String × V)) (key : String) (value : V) : List (String × V) :=
  (key, value) :: d.filter (fun p => !(p.1 == key))

/-- Association-list lookup mirroring Python `d.get(key)`: the value bound to
the key, or `none` when the key is absent. -/
def dictGet {V : Type} (d : List (String × V)) (key : String) : Option V :=
  (d.find? (fun p => p.1 == key)).map Prod.snd

/-- JSONModel: the entity state relevant to the property bag.  The field
mirrors the `_properties_storage` column, which is `None` (here `none`)
until the first write. -/
structure JSONModel (V : Type) where
  propertiesStorage : Option (List (String × V))

/-- The `properties` getter: an empty mapping when the storage column is
unset, otherwise the stored mapping. -/
def JSONModel.properties {V : Type} (m : JSONModel V) : List (String × V) :=
  match m.propertiesStorage with
  | none => []
  | some d => d

/-- The `get` method: `self.properties.get(key)`. -/
def JSONModel.get {V : Type} (m : JSONModel V) (key : String) : Option V :=
  dictGet m.properties key

/-- The `set` method: `self.properties[key] = value` followed by syncing the
storage column to the updated mapping. -/
def JSONModel.set {V : Type} (m : JSONModel V) (key : String) (value : V) : JSONModel V :=
  { propertiesStorage := some (dictSet m.properties key value) }

/-- A freshly created entity: the class leaves `_properties_storage = None`. -/
def freshEntity (V : Type) : JSONModel V :=
  { propertiesStorage := none }

/-- Dynamic class of a node in the polymorphic hierarchy: base `Node`, or the
variants `Query` / `Table` (polymorphic identities "node" / "query" / "table"). -/
inductive NodeClass where
  | node
  | query
  | table
deriving DecidableEq

/-- A graph vertex: store-assigned id, name, and dynamic class. -/
structure Node where
  id : Nat
  name : String
  cls : NodeClass
deriving DecidableEq

/-- A directed edge row: id, endpoint foreign keys, and the dynamic Python
class name (`"Edge"` for the base class, `"Refer"` for reference edges). -/
structure Edge where
  id : Nat
  from_node_id : Nat
  to_node_id : Nat
  className : String
deriving DecidableEq

/-- An in-memory graph snapshot: the loaded node and edge rows. -/
structure Graph where
  nodes : List Node
  edges : List Edge

/-- The `edges_from` relationship of a node: edges whose `from_node_id` is
this node's id. -/
def Graph.edges_from (g : Graph) (self : Node) : List Edge :=
  g.edges.filter (fun e => e.from_node_id == self.id)

/-- The `edges_to` relationship of a node: edges whose `to_node_id` is this
node's id. -/
def Graph.edges_to (g : Graph) (self : Node) : List Edge :=
  g.edges.filter (fun e => e.to_node_id == self.id)

/-- The `to_node` relationship of an edge: the node row whose id is the
edge's `to_node_id`. -/
def Graph.to_node (g : Graph) (e : Edge) : Option Node :=
  g.nodes.find? (fun n => n.id == e.to_node_id)

/-- The `from_node` relationship of an edge: the node row whose id is the
edge's `from_node_id`. -/
def Graph.from_node (g : Graph) (e : Edge) : Option Node :=
  g.nodes.find? (fun n => n.id == e.from_node_id)

/-- Python `isinstance(n, c)` for the node hierarchy: every node is an
instance of the base class, and a variant class matches exactly its own
instances (the hierarchy has no deeper subclasses). -/
def isinstance (n : Node) (c : NodeClass) : Bool :=
  match c with
  | NodeClass.node => true
  | NodeClass.query => n.cls == NodeClass.query
  | NodeClass.table => n.cls == NodeClass.table

/-- The endpoint opposite the traversal direction:
`edge.to_node if direction == "out" else edge.from_node`. -/
def relatedNode (g : Graph) (direction : String) (e : Edge) : Option Node :=
  if direction == "out" then g.to_node e else g.from_node e

/-- The `related_type is None or isinstance(...)` test of the resolver. -/
def matchesRelatedType (related_type : Option NodeClass) (n : Node) : Bool :=
  match related_type with
  | none => true
  | some c => isinstance n c

/-- The set comprehension inside `get_related_nodes`: neighbors over the given
edges whose edge has exactly the requested dynamic class name and whose
neighbor passes the optional node-class filter. -/
def relatedSet (g : Graph) (direction : String) (related_type : Option NodeClass)
    (edge_type : String) (edges : List Edge) : Finset Node :=
  (edges.filterMap (fun e =>
    match relatedNode g direction e with
    | none => none
    | some n =>
      if e.className == edge_type && matchesRelatedType related_type n then some n
      else none)).toFinset

/-- The relationship resolver `Node.get_related_nodes`: scans `edges_from`
for direction "out", `edges_to` for direction "in", and raises a ValueError
for any other direction. -/
def Node.get_related_nodes (g : Graph) (self : Node) (direction : String)
    (related_type : Option NodeClass) (edge_type : String) : Except String (Finset Node) :=
  if direction == "out" then
    Except.ok (relatedSet g direction related_type edge_type (g.edges_from self))
  else if direction == "in" then
    Except.ok (relatedSet g direction related_type edge_type (g.edges_to self))
  else
    Except.error "direction must be \x27out\x27 or \x27in\x27"

/-- One pass of the loop body of recursive `refers`
(`for refer in self.edges_from: ...`), processing the remaining edges.
`rec` is the recursive call available to the loop; the accumulator pair is
the `tables` result set and the shared mutable `visited` set of Query ids.
For each edge's destination: a Table is added to `tables`; an unvisited
Query is recursed into (its tables unioned in, its visited additions kept);
anything else is skipped.  `none` signals fuel exhaustion inside `rec`. -/
def refersLoop (rec : Node → Finset Nat → Option (Finset Node × Finset Nat))
    (g : Graph) : List Edge → Finset Node → Finset Nat → Option (Finset Node × Finset Nat)
  | [], tables, visited => some (tables, visited)
  | e :: rest, tables, visited =>
    match g.to_node e with
    | none => refersLoop rec g rest tables visited
    | some n =>
      if n.cls = NodeClass.table then
        refersLoop rec g rest (insert n tables) visited
      else if n.cls = NodeClass.query ∧ n.id ∉ visited then
        match rec n visited with
        | none => none
        | some s => refersLoop rec g rest (tables ∪ s.1) s.2
      else
        refersLoop rec g rest tables visited

/-- The recursive branch of `Query.refers`, with an explicit fuel bound on
recursion depth standing in for Python's call stack: mark `self.id` visited,
then run the edge loop.  `none` means the fuel ran out (the Python code has
no such bound; the sufficiency theorems below show the bound used by
`Query.refers` is never hit). -/
def refersFuel (g : Graph) (fuel : Nat) : Node → Finset Nat → Option (Finset Node × Finset Nat) :=
  Nat.rec (fun _ _ => none)
    (fun _ ih self visited =>
      refersLoop ih g (g.edges_from self) ∅ (insert self.id visited)) fuel

/-- `Query.refers`: recursive mode runs the fuelled traversal from an empty
visited set (fuel one more than the node count); direct mode is
`get_related_nodes(direction="out", related_type=Table, edge_type="Refer")`,
whose direction is always valid, hence `toOption`. -/
def Query.refers (g : Graph) (self : Node) (recursive : Bool) : Option (Finset Node) :=
  if recursive then
    (refersFuel g (g.nodes.length + 1) self ∅).map Prod.fst
  else
    (Node.get_related_nodes g self "out" (some NodeClass.table) "Refer").toOption

/-- `Table.refered`: `get_related_nodes(direction="in", related_type=Query,
edge_type="Refer")`; the direction is always valid, hence `toOption`. -/
def Table.refered (g : Graph) (self : Node) : Option (Finset Node) :=
  (Node.get_related_nodes g self "in" (some NodeClass.query) "Refer").toOption

/-- Number of node ids of the graph not yet in the visited set; the measure
that shrinks whenever the traversal enters a new Query. -/
def unvisitedCard (g : Graph) (visited : Finset Nat) : Nat :=
  ((g.nodes.map Node.id).toFinset \ visited).card

/-! Concrete graph instances used to evaluate the model on small inputs. -/

/-- Query of the two-node graph whose only edge is a bare `Edge` (not `Refer`). -/
def bareQ : Node := ⟨1, "q", NodeClass.query⟩

/-- Table of the two-node graph whose only edge is a bare `Edge`. -/
def bareT : Node := ⟨2, "t", NodeClass.table⟩

/-- Graph whose only connection from the query to the table is a bare `Edge`
of class name "Edge", not a `Refer` reference edge. -/
def bareGraph : Graph := ⟨[bareQ, bareT], [⟨1, 1, 2, "Edge"⟩]⟩

/-- Query A of the mutual-cycle graph. -/
def cycleA : Node := ⟨1, "A", NodeClass.query⟩

/-- Query B of the mutual-cycle graph. -/
def cycleB : Node := ⟨2, "B", NodeClass.query⟩

/-- Table T of the mutual-cycle graph. -/
def cycleT : Node := ⟨3, "T", NodeClass.table⟩

/-- Graph with reference edges A→B, B→A (mutual cycle) and B→T. -/
def cycleGraph : Graph :=
  ⟨[cycleA, cycleB, cycleT], [⟨1, 1, 2, "Refer"⟩, ⟨2, 2, 1, "Refer"⟩, ⟨3, 2, 3, "Refer"⟩]⟩

/-- Query with a reference edge to itself. -/
def selfLoopQ : Node := ⟨1, "Q", NodeClass.query⟩

/-- Graph with a single Query and a self-referencing edge. -/
def selfLoopGraph : Graph := ⟨[selfLoopQ], [⟨1, 1, 1, "Refer"⟩]⟩

/-- Query of the direct-reference example graph. -/
def w3q : Node := ⟨1, "w3q", NodeClass.query⟩

/-- Table of the direct-reference example graph. -/
def w3t : Node := ⟨2, "w3t", NodeClass.table⟩

/-- Graph with a single reference edge from `w3q` to `w3t`. -/
def w3g : Graph := ⟨[w3q, w3t], [⟨1, 1, 2, "Refer"⟩]⟩

/-- The sample-data query `query_1`. -/
def sampleQuery : Node := ⟨1, "query_1", NodeClass.query⟩

/-- The sample-data table `table_1`. -/
def sampleTable : Node := ⟨2, "table_1", NodeClass.table⟩

/-- The sample-data graph: a `Refer` edge from `query_1` to `table_1`. -/
def sampleGraph : Graph := ⟨[sampleQuery, sampleTable], [⟨1, 1, 2, "Refer"⟩]⟩

/-- A node for exercising the resolver's direction argument. -/
def dirNode : Node := ⟨1, "n", NodeClass.query⟩

/-- A one-node, zero-edge graph. -/
def dirGraph : Graph := ⟨[dirNode], []⟩

/-- Query `q2` of the query-chain scenario. -/
def chainQ2 : Node := ⟨1, "query_2", NodeClass.query⟩

/-- Query `q1` of the query-chain scenario. -/
def chainQ1 : Node := ⟨2, "query_1", NodeClass.query⟩

/-- Table `t` of the query-chain scenario. -/
def chainT : Node := ⟨3, "t", NodeClass.table⟩

/-- Graph where `q2` refers to `q1` and `q1` refers to table `t`. -/
def chainGraph : Graph :=
  ⟨[chainQ2, chainQ1, chainT], [⟨1, 1, 2, "Refer"⟩, ⟨2, 2, 3, "Refer"⟩]⟩

/-- Query of the class-name filter example. -/
def lowerQ : Node := ⟨1, "q", NodeClass.query⟩

/-- Table of the class-name filter example. -/
def lowerT : Node := ⟨2, "t", NodeClass.table⟩

/-- Graph with one `Refer` edge (dynamic class name "Refer") from the query
to the table. -/
def lowerGraph : Graph := ⟨[lowerQ, lowerT], [⟨1, 1, 2, "Refer"⟩]⟩

/-- Query of the subtype-exclusion example. -/
def subQ : Node := ⟨1, "q", NodeClass.query⟩

/-- Table of the subtype-exclusion example. -/
def subT : Node := ⟨2, "t", NodeClass.table⟩

/-- Graph whose only edge has the dynamic class name "ReferSub", standing for
a strict subtype of `Refer`. -/
def subGraph : Graph := ⟨[subQ, subT], [⟨1, 1, 2, "ReferSub"⟩]⟩

/-! Basic facts about the embedded relationships. -/

theorem to_node_mem {g : Graph} {e : Edge} {n : Node} (h : g.to_node e = some n) :
    n ∈ g.nodes ∧ n.id = e.to_node_id := by
  refine ⟨List.mem_of_find?_eq_some h, ?_⟩
  have hp := List.find?_some h
  simpa using hp

theorem from_node_mem {g : Graph} {e : Edge} {n : Node} (h : g.from_node e = some n) :
    n ∈ g.nodes ∧ n.id = e.from_node_id := by
  refine ⟨List.mem_of_find?_eq_some h, ?_⟩
  have hp := List.find?_some h
  simpa using hp

theorem mem_edges_from {g : Graph} {self : Node} {e : Edge} :
    e ∈ g.edges_from self ↔ e ∈ g.edges ∧ e.from_node_id = self.id := by
  unfold Graph.edges_from
  simp [List.mem_filter]

theorem mem_edges_to {g : Graph} {self : Node} {e : Edge} :
    e ∈ g.edges_to self ↔ e ∈ g.edges ∧ e.to_node_id = self.id := by
  unfold Graph.edges_to
  simp [List.mem_filter]

theorem find?_id_eq_self {l : List Node} (hnd : (l.map Node.id).Nodup) {q : Node}
    (hq : q ∈ l) : l.find? (fun n => n.id == q.id) = some q := by
  induction l with
  | nil => cases hq
  | cons a t ih =>
    have hnd1 : a.id ∉ t.map Node.id ∧ (t.map Node.id).Nodup := by
      rw [List.map_cons, List.nodup_cons] at hnd
      exact hnd
    rcases List.mem_cons.mp hq with rfl | hqt
    · simp [List.find?_cons]
    · have hane : ¬ a.id = q.id := by
        intro hid
        exact hnd1.1 (hid ▸ List.mem_map.mpr ⟨q, hqt, rfl⟩)
      have hb : (a.id == q.id) = false := by simp [hane]
      rw [List.find?_cons, hb]
      exact ih hnd1.2 hqt

theorem mem_relatedSet {g : Graph} {d : String} {rt : Option NodeClass} {et : String}
    {edges : List Edge} {n : Node} :
    n ∈ relatedSet g d rt et edges ↔
      ∃ e, e ∈ edges ∧ relatedNode g d e = some n ∧ e.className = et ∧
        matchesRelatedType rt n = true := by
  unfold relatedSet
  rw [List.mem_toFinset, List.mem_filterMap]
  constructor
  · rintro ⟨e, he, hf⟩
    split at hf
    · cases hf
    · next m hm =>
      split at hf
      · next hc =>
        injection hf with hmn
        subst hmn
        rcases Bool.and_eq_true_iff.mp hc with ⟨hc1, hc2⟩
        exact ⟨e, he, hm, by simpa using hc1, hc2⟩
      · cases hf
  · rintro ⟨e, he, hrel, hcl, hmt⟩
    refine ⟨e, he, ?_⟩
    rw [hrel]
    simp [hcl, hmt]

/-! Unfolding equations for the fuelled traversal. -/

theorem refersFuel_zero (g : Graph) (self : Node) (visited : Finset Nat) :
    refersFuel g 0 self visited = none := rfl

theorem refersFuel_succ (g : Graph) (fuel : Nat) (self : Node) (visited : Finset Nat) :
    refersFuel g (fuel + 1) self visited =
      refersLoop (refersFuel g fuel) g (g.edges_from self) ∅ (insert self.id visited) := rfl

theorem refersLoop_nil (rec : Node → Finset Nat → Option (Finset Node × Finset Nat))
    (g : Graph) (tables : Finset Node) (visited : Finset Nat) :
    refersLoop rec g [] tables visited = some (tables, visited) := rfl

theorem refersLoop_cons_none {g : Graph} {e : Edge}
    (rec : Node → Finset Nat → Option (Finset Node × Finset Nat))
    (rest : List Edge) (tables : Finset Node) (visited : Finset Nat)
    (h : g.to_node e = none) :
    refersLoop rec g (e :: rest) tables visited = refersLoop rec g rest tables visited := by
  simp [refersLoop, h]

theorem refersLoop_cons_table {g : Graph} {e : Edge} {n : Node}
    (rec : Node → Finset Nat → Option (Finset Node × Finset Nat))
    (rest : List Edge) (tables : Finset Node) (visited : Finset Nat)
    (h : g.to_node e = some n) (ht : n.cls = NodeClass.table) :
    refersLoop rec g (e :: rest) tables visited =
      refersLoop rec g rest (insert n tables) visited := by
  simp [refersLoop, h, ht]

theorem refersLoop_cons_query {g : Graph} {e : Edge} {n : Node}
    (rec : Node → Finset Nat → Option (Finset Node × Finset Nat))
    (rest : List Edge) (tables : Finset Node) (visited : Finset Nat)
    (h : g.to_node e = some n) (hq : n.cls = NodeClass.query) (hnv : n.id ∉ visited) :
    refersLoop rec g (e :: rest) tables visited =
      match rec n visited with
      | none => none
      | some s => refersLoop rec g rest (tables ∪ s.1) s.2 := by
  simp [refersLoop, h, hq, hnv]

theorem refersLoop_cons_skip {g : Graph} {e : Edge} {n : Node}
    (rec : Node → Finset Nat → Option (Finset Node × Finset Nat))
    (rest : List Edge) (tables : Finset Node) (visited : Finset Nat)
    (h : g.to_node e = some n) (ht : ¬ n.cls = NodeClass.table)
    (hqv : ¬ (n.cls = NodeClass.query ∧ n.id ∉ visited)) :
    refersLoop rec g (e :: rest) tables visited = refersLoop rec g rest tables visited := by
  simp [refersLoop, h, ht, hqv]

/-! Structural lemmas about one loop step and about whole loop runs. -/

theorem refersLoop_cons_inv {g : Graph}
    {rec : Node → Finset Nat → Option (Finset Node × Finset Nat)}
    (Hrec : ∀ n vis s, rec n vis = some s → vis ⊆ s.2)
    {e : Edge} {rest : List Edge} {tables : Finset Node} {visited : Finset Nat}
    {r : Finset Node × Finset Nat}
    (h : refersLoop rec g (e :: rest) tables visited = some r) :
    ∃ tables2 visited2, refersLoop rec g rest tables2 visited2 = some r ∧
      tables ⊆ tables2 ∧ visited ⊆ visited2 := by
  rcases hto : g.to_node e with _ | n
  · rw [refersLoop_cons_none rec rest tables visited hto] at h
    exact ⟨tables, visited, h, Finset.Subset.refl _, Finset.Subset.refl _⟩
  · by_cases ht : n.cls = NodeClass.table
    · rw [refersLoop_cons_table rec rest tables visited hto ht] at h
      exact ⟨insert n tables, visited, h, Finset.subset_insert _ _, Finset.Subset.refl _⟩
    · by_cases hqv : n.cls = NodeClass.query ∧ n.id ∉ visited
      · rw [refersLoop_cons_query rec rest tables visited hto hqv.1 hqv.2] at h
        rcases hrec : rec n visited with _ | s
        · rw [hrec] at h; cases h
        · rw [hrec] at h
          exact ⟨tables ∪ s.1, s.2, h, Finset.subset_union_left, Hrec n visited s hrec⟩
      · rw [refersLoop_cons_skip rec rest tables visited hto ht hqv] at h
        exact ⟨tables, visited, h, Finset.Subset.refl _, Finset.Subset.refl _⟩

theorem refersLoop_mono {g : Graph}
    {rec : Node → Finset Nat → Option (Finset Node × Finset Nat)}
    (Hrec : ∀ n vis s, rec n vis = some s → vis ⊆ s.2) :
    ∀ (es : List Edge) (tables : Finset Node) (visited : Finset Nat)
      (r : Finset Node × Finset Nat),
      refersLoop rec g es tables visited = some r → tables ⊆ r.1 ∧ visited ⊆ r.2 := by
  intro es
  induction es with
  | nil =>
    intro tables visited r h
    rw [refersLoop_nil] at h
    cases h
    exact ⟨Finset.Subset.refl _, Finset.Subset.refl _⟩
  | cons e rest ih =>
    intro tables visited r h
    rcases refersLoop_cons_inv Hrec h with ⟨t2, v2, h2, hts, hvs⟩
    rcases ih t2 v2 r h2 with ⟨hts2, hvs2⟩
    exact ⟨hts.trans hts2, hvs.trans hvs2⟩

theorem refersFuel_visited_mono :
    ∀ (fuel : Nat) (g : Graph) (self : Node) (visited : Finset Nat)
      (r : Finset Node × Finset Nat),
      refersFuel g fuel self visited = some r → insert self.id visited ⊆ r.2 := by
  intro fuel
  induction fuel with
  | zero => intro g self visited r h; cases h
  | succ fuel ih =>
    intro g self visited r h
    rw [refersFuel_succ] at h
    have Hrec : ∀ n vis s, refersFuel g fuel n vis = some s → vis ⊆ s.2 := by
      intro n vis s hs
      exact (Finset.subset_insert _ _).trans (ih g n vis s hs)
    exact (refersLoop_mono Hrec _ _ _ _ h).2

theorem refersFuel_visited_le {fuel : Nat} {g : Graph} {n : Node} {vis : Finset Nat}
    {s : Finset Node × Finset Nat} (h : refersFuel g fuel n vis = some s) : vis ⊆ s.2 :=
  (Finset.subset_insert _ _).trans (refersFuel_visited_mono fuel g n vis s h)

/-! Fuel sufficiency: the visited set grows through every recursive entry, so
fuel exceeding the number of unvisited node ids can never run out. -/

theorem unvisitedCard_le_of_subset {g : Graph} {v1 v2 : Finset Nat} (h : v1 ⊆ v2) :
    unvisitedCard g v2 ≤ unvisitedCard g v1 :=
  Finset.card_le_card (Finset.sdiff_subset_sdiff (Finset.Subset.refl _) h)

theorem unvisitedCard_insert_lt {g : Graph} {n : Node} {vis : Finset Nat}
    (hn : n ∈ g.nodes) (hnv : n.id ∉ vis) :
    unvisitedCard g (insert n.id vis) < unvisitedCard g vis := by
  apply Finset.card_lt_card
  rw [Finset.ssubset_def]
  constructor
  · exact Finset.sdiff_subset_sdiff (Finset.Subset.refl _) (Finset.subset_insert _ _)
  · intro hsub
    have hmem : n.id ∈ (g.nodes.map Node.id).toFinset \ vis := by
      rw [Finset.mem_sdiff]
      exact ⟨List.mem_toFinset.mpr (List.mem_map.mpr ⟨n, hn, rfl⟩), hnv⟩
    have h2 := hsub hmem
    rw [Finset.mem_sdiff] at h2
    exact h2.2 (Finset.mem_insert_self _ _)

theorem refersLoop_isSome {g : Graph} {B : Nat}
    {rec : Node → Finset Nat → Option (Finset Node × Finset Nat)}
    (Hrec : ∀ n vis, n ∈ g.nodes → n.id ∉ vis → unvisitedCard g vis ≤ B →
      ∃ s, rec n vis = some s)
    (Hmono : ∀ n vis s, rec n vis = some s → vis ⊆ s.2) :
    ∀ (es : List Edge) (tables : Finset Node) (visited : Finset Nat),
      unvisitedCard g visited ≤ B →
      ∃ r, refersLoop rec g es tables visited = some r := by
  intro es
  induction es with
  | nil => intro tables visited _; exact ⟨(tables, visited), rfl⟩
  | cons e rest ih =>
    intro tables visited hB
    rcases hto : g.to_node e with _ | n
    · rcases ih tables visited hB with ⟨r, hr⟩
      exact ⟨r, by rw [refersLoop_cons_none rec rest tables visited hto]; exact hr⟩
    · by_cases ht : n.cls = NodeClass.table
      · rcases ih (insert n tables) visited hB with ⟨r, hr⟩
        exact ⟨r, by rw [refersLoop_cons_table rec rest tables visited hto ht]; exact hr⟩
      · by_cases hqv : n.cls = NodeClass.query ∧ n.id ∉ visited
        · have hn : n ∈ g.nodes := (to_node_mem hto).1
          rcases Hrec n visited hn hqv.2 hB with ⟨s, hs⟩
          have hvs : visited ⊆ s.2 := Hmono n visited s hs
          have hB2 : unvisitedCard g s.2 ≤ B := (unvisitedCard_le_of_subset hvs).trans hB
          rcases ih (tables ∪ s.1) s.2 hB2 with ⟨r, hr⟩
          refine ⟨r, ?_⟩
          rw [refersLoop_cons_query rec rest tables visited hto hqv.1 hqv.2, hs]
          exact hr
        · rcases ih tables visited hB with ⟨r, hr⟩
          exact ⟨r, by rw [refersLoop_cons_skip rec rest tables visited hto ht hqv]; exact hr⟩

theorem refersFuel_isSome :
    ∀ (fuel : Nat) (g : Graph) (self : Node) (visited : Finset Nat),
      unvisitedCard g (insert self.id visited) < fuel →
      ∃ r, refersFuel g fuel self visited = some r := by
  intro fuel
  induction fuel with
  | zero => intro g self visited h; exact absurd h (Nat.not_lt_zero _)
  | succ fuel ih =>
    intro g self visited h
    have Hrec : ∀ n vis, n ∈ g.nodes → n.id ∉ vis → unvisitedCard g vis ≤ fuel →
        ∃ s, refersFuel g fuel n vis = some s := by
      intro n vis hn hnv hB
      apply ih
      have h1 : unvisitedCard g (insert n.id vis) < unvisitedCard g vis :=
        unvisitedCard_insert_lt hn hnv
      omega
    have Hmono : ∀ n vis s, refersFuel g fuel n vis = some s → vis ⊆ s.2 := by
      intro n vis s hs
      exact (Finset.subset_insert _ _).trans (refersFuel_visited_mono fuel g n vis s hs)
    have hB : unvisitedCard g (insert self.id visited) ≤ fuel := by omega
    rcases refersLoop_isSome Hrec Hmono (g.edges_from self) ∅ (insert self.id visited) hB
      with ⟨r, hr⟩
    exact ⟨r, by rw [refersFuel_succ]; exact hr⟩

theorem refers_recursive_isSome (g : Graph) (self : Node) :
    ∃ r, refersFuel g (g.nodes.length + 1) self ∅ = some r := by
  apply refersFuel_isSome
  have h1 : unvisitedCard g (insert self.id ∅) ≤ (g.nodes.map Node.id).toFinset.card :=
    Finset.card_le_card Finset.sdiff_subset
  have h2 : (g.nodes.map Node.id).toFinset.card ≤ (g.nodes.map Node.id).length :=
    List.toFinset_card_le _
  rw [List.length_map] at h2
  omega

/-! Every table directly behind some edge of the scanned list ends up in the
returned result set. -/

theorem refersLoop_table_mem {g : Graph}
    {rec : Node → Finset Nat → Option (Finset Node × Finset Nat)}
    (Hrec : ∀ n vis s, rec n vis = some s → vis ⊆ s.2) :
    ∀ (es : List Edge) (tables : Finset Node) (visited : Finset Nat)
      (r : Finset Node × Finset Nat),
      refersLoop rec g es tables visited = some r →
      ∀ e ∈ es, ∀ n, g.to_node e = some n → n.cls = NodeClass.table → n ∈ r.1 := by
  intro es
  induction es with
  | nil => intro tables visited r _ e he; cases he
  | cons e0 rest ih =>
    intro tables visited r h e he n hto htc
    rcases List.mem_cons.mp he with rfl | hrest
    · rw [refersLoop_cons_table rec rest tables visited hto htc] at h
      exact (refersLoop_mono Hrec rest _ _ r h).1 (Finset.mem_insert_self n tables)
    · rcases refersLoop_cons_inv Hrec h with ⟨t2, v2, h2, _, _⟩
      exact ih t2 v2 r h2 e hrest n hto htc

/-! Provenance: every node in the returned result set is a Table and is the
destination of some graph edge whose source id was visited. -/

theorem refersLoop_provenance {g : Graph}
    {rec : Node → Finset Nat → Option (Finset Node × Finset Nat)}
    (Hrec : ∀ n vis s, rec n vis = some s → vis ⊆ s.2 ∧
      ∀ x ∈ s.1, x.cls = NodeClass.table ∧
        ∃ e, e ∈ g.edges ∧ e.from_node_id ∈ s.2 ∧ g.to_node e = some x) :
    ∀ (es : List Edge) (tables : Finset Node) (visited : Finset Nat)
      (r : Finset Node × Finset Nat),
      (∀ e ∈ es, e ∈ g.edges ∧ e.from_node_id ∈ visited) →
      refersLoop rec g es tables visited = some r →
      ∀ x ∈ r.1, x ∈ tables ∨ (x.cls = NodeClass.table ∧
        ∃ e, e ∈ g.edges ∧ e.from_node_id ∈ r.2 ∧ g.to_node e = some x) := by
  have Hmono : ∀ n vis s, rec n vis = some s → vis ⊆ s.2 :=
    fun n vis s hs => (Hrec n vis s hs).1
  intro es
  induction es with
  | nil =>
    intro tables visited r _ h x hx
    rw [refersLoop_nil] at h
    cases h
    exact Or.inl hx
  | cons e0 rest ih =>
    intro tables visited r hes h x hx
    have hes0 : e0 ∈ g.edges ∧ e0.from_node_id ∈ visited :=
      hes e0 (List.mem_cons_self _ _)
    have hesRest : ∀ e ∈ rest, e ∈ g.edges ∧ e.from_node_id ∈ visited :=
      fun e he => hes e (List.mem_cons_of_mem _ he)
    rcases hto : g.to_node e0 with _ | n
    · rw [refersLoop_cons_none rec rest tables visited hto] at h
      exact ih tables visited r hesRest h x hx
    · by_cases ht : n.cls = NodeClass.table
      · rw [refersLoop_cons_table rec rest tables visited hto ht] at h
        rcases ih (insert n tables) visited r hesRest h x hx with hin | hrem
        · rcases Finset.mem_insert.mp hin with rfl | htab
          · refine Or.inr ⟨ht, e0, hes0.1, ?_, hto⟩
            exact (refersLoop_mono Hmono rest _ _ r h).2 hes0.2
          · exact Or.inl htab
        · exact Or.inr hrem
      · by_cases hqv : n.cls = NodeClass.query ∧ n.id ∉ visited
        · rw [refersLoop_cons_query rec rest tables visited hto hqv.1 hqv.2] at h
          rcases hrec : rec n visited with _ | s
          · rw [hrec] at h; cases h
          · rw [hrec] at h
            have hsub : visited ⊆ s.2 := Hmono n visited s hrec
            have hes2 : ∀ e ∈ rest, e ∈ g.edges ∧ e.from_node_id ∈ s.2 :=
              fun e he => ⟨(hesRest e he).1, hsub (hesRest e he).2⟩
            rcases ih (tables ∪ s.1) s.2 r hes2 h x hx with hin | hrem
            · rcases Finset.mem_union.mp hin with htab | hsx
              · exact Or.inl htab
              · rcases (Hrec n visited s hrec).2 x hsx with ⟨hcls, e, he1, he2, he3⟩
                refine Or.inr ⟨hcls, e, he1, ?_, he3⟩
                exact (refersLoop_mono Hmono rest _ _ r h).2 he2
            · exact Or.inr hrem
        · rw [refersLoop_cons_skip rec rest tables visited hto ht hqv] at h
          exact ih tables visited r hesRest h x hx

theorem refersFuel_provenance :
    ∀ (fuel : Nat) (g : Graph) (self : Node) (visited : Finset Nat)
      (r : Finset Node × Finset Nat),
      refersFuel g fuel self visited = some r →
      ∀ x ∈ r.1, x.cls = NodeClass.table ∧
        ∃ e, e ∈ g.edges ∧ e.from_node_id ∈ r.2 ∧ g.to_node e = some x := by
  intro fuel
  induction fuel with
  | zero => intro g self visited r h; cases h
  | succ fuel ih =>
    intro g self visited r h
    rw [refersFuel_succ] at h
    have Hrec : ∀ n vis s, refersFuel g fuel n vis = some s → vis ⊆ s.2 ∧
        ∀ x ∈ s.1, x.cls = NodeClass.table ∧
          ∃ e, e ∈ g.edges ∧ e.from_node_id ∈ s.2 ∧ g.to_node e = some x := by
      intro n vis s hs
      exact ⟨(Finset.subset_insert _ _).trans (refersFuel_visited_mono fuel g n vis s hs),
        ih g n vis s hs⟩
    have hes : ∀ e ∈ g.edges_from self,
        e ∈ g.edges ∧ e.from_node_id ∈ insert self.id visited := by
      intro e he
      rcases mem_edges_from.mp he with ⟨h1, h2⟩
      exact ⟨h1, by rw [h2]; exact Finset.mem_insert_self _ _⟩
    intro x hx
    rcases refersLoop_provenance Hrec (g.edges_from self) ∅ (insert self.id visited) r hes h x hx
      with hin | hrem
    · exact absurd hin (Finset.not_mem_empty x)
    · exact hrem

/-! Properties of the JSON property bag. -/

theorem dictGet_dictSet_self {V : Type} (d : List (String × V)) (k : String) (v : V) :
    dictGet (dictSet d k v) k = some v := by
  simp [dictGet, dictSet, List.find?_cons]

/-- C8: property writes are idempotent and overwriting: after `set(k, v)`
twice in succession, `get(k)` returns `v`, the same as after a single
`set(k, v)`; a second `set` on a colliding key simply overwrites. -/
theorem jsonmodel_set_idempotent_overwrite {V : Type} (m : JSONModel V) (k : String)
    (v w : V) :
    ((m.set k v).set k v).get k = some v ∧
    (m.set k v).get k = some v ∧
    ((m.set k w).set k v).get k = some v := by
  refine ⟨?_, ?_, ?_⟩ <;>
    simp [JSONModel.get, JSONModel.set, JSONModel.properties, dictGet_dictSet_self]

/-- C9: a freshly created entity returns absent for every `get(key)` and its
`properties` mapping reads as an empty mapping, never a missing state. -/
theorem fresh_entity_get_none (V : Type) (k : String) :
    (freshEntity V).get k = none ∧ (freshEntity V).properties = [] :=
  ⟨rfl, rfl⟩

/-! Claim theorems about the traversal engine. -/

/-- C1 (code-bug evaluation): recursive `refers` follows every outgoing edge
regardless of its dynamic class.  On the graph whose only connection from the
query to the table is a bare `Edge` (class name "Edge", not "Refer"), the
recursive traversal returns the table, while the direct mode, which filters
on the `Refer` class, returns the empty set — contradicting the claim that
only reference edges are followed transitively. -/
theorem refers_recursive_includes_table_behind_plain_edge :
    Query.refers bareGraph bareQ true = some {bareT} ∧
    Query.refers bareGraph bareQ false = some ∅ := by
  constructor
  · decide
  · decide

/-- C2: on the mutual cycle A→B→A with B→T, `A.refers(recursive=true)`
terminates and returns exactly `{T}`; a self-referencing Query does not
cause infinite recursion and returns the empty set. -/
theorem refers_cycle_safe :
    Query.refers cycleGraph cycleA true = some {cycleT} ∧
    Query.refers selfLoopGraph selfLoopQ true = some ∅ := by
  constructor
  · decide
  · decide

/-- C6: recursive `refers` terminates (the fuel bound, which exceeds the
number of unvisited node ids, is never hit) on every finite graph, cycles
included, and produces a result set. -/
theorem refers_recursive_terminates (g : Graph) (self : Node) :
    ∃ s, Query.refers g self true = some s := by
  rcases refers_recursive_isSome g self with ⟨r, hr⟩
  exact ⟨r.1, by simp [Query.refers, hr]⟩

/-- C3: for every Query, the direct result set of `refers(recursive=false)`
is a subset of the transitive result set of `refers(recursive=true)`. -/
theorem refers_direct_subset_transitive (g : Graph) (q : Node)
    (hq : q.cls = NodeClass.query) :
    ∃ s0 s1, Query.refers g q false = some s0 ∧ Query.refers g q true = some s1 ∧
      s0 ⊆ s1 := by
  rcases refers_recursive_isSome g q with ⟨r, hr⟩
  refine ⟨relatedSet g "out" (some NodeClass.table) "Refer" (g.edges_from q), r.1,
    rfl, by simp [Query.refers, hr], ?_⟩
  intro t ht
  rcases mem_relatedSet.mp ht with ⟨e, he, hrel, _, hmt⟩
  have hto : g.to_node e = some t := by simpa [relatedNode] using hrel
  have htc : t.cls = NodeClass.table := by simpa [matchesRelatedType, isinstance] using hmt
  rw [refersFuel_succ] at hr
  have Hmono : ∀ n vis s, refersFuel g g.nodes.length n vis = some s → vis ⊆ s.2 :=
    fun n vis s hs => refersFuel_visited_le hs
  exact refersLoop_table_mem Hmono (g.edges_from q) ∅ (insert q.id ∅) r hr e he t hto htc

/-- Witness for C3 at the one-edge graph `w3g`. -/
theorem refers_direct_subset_transitive_w :
    w3q.cls = NodeClass.query ∧
    ∃ s0 s1, Query.refers w3g w3q false = some s0 ∧ Query.refers w3g w3q true = some s1 ∧
      s0 ⊆ s1 :=
  ⟨by decide, refers_direct_subset_transitive w3g w3q (by decide)⟩

/-- C4: for every Query `q` and Table `t` of a graph with distinct node ids,
`t` is in `q.refers(recursive=false)` exactly when `q` is in `t.refered()`. -/
theorem refers_refered_inverse (g : Graph) (q t : Node)
    (hnd : (g.nodes.map Node.id).Nodup) (hq : q ∈ g.nodes) (ht : t ∈ g.nodes)
    (hqc : q.cls = NodeClass.query) (htc : t.cls = NodeClass.table) :
    ((∃ s, Query.refers g q false = some s ∧ t ∈ s) ↔
      (∃ s, Table.refered g t = some s ∧ q ∈ s)) := by
  constructor
  · rintro ⟨s, hs, hts⟩
    have hs2 : relatedSet g "out" (some NodeClass.table) "Refer" (g.edges_from q) = s := by
      have hcalc : Query.refers g q false =
          some (relatedSet g "out" (some NodeClass.table) "Refer" (g.edges_from q)) := rfl
      rw [hcalc] at hs
      injection hs
    subst hs2
    refine ⟨relatedSet g "in" (some NodeClass.query) "Refer" (g.edges_to t), rfl, ?_⟩
    rcases mem_relatedSet.mp hts with ⟨e, he, hrel, hcl, _⟩
    have hto : g.to_node e = some t := by simpa [relatedNode] using hrel
    have htid : t.id = e.to_node_id := (to_node_mem hto).2
    have hef : e ∈ g.edges ∧ e.from_node_id = q.id := mem_edges_from.mp he
    apply mem_relatedSet.mpr
    refine ⟨e, mem_edges_to.mpr ⟨hef.1, htid.symm⟩, ?_, hcl, ?_⟩
    · show g.from_node e = some q
      unfold Graph.from_node
      rw [hef.2]
      exact find?_id_eq_self hnd hq
    · simp [matchesRelatedType, isinstance, hqc]
  · rintro ⟨s, hs, hqs⟩
    have hs2 : relatedSet g "in" (some NodeClass.query) "Refer" (g.edges_to t) = s := by
      have hcalc : Table.refered g t =
          some (relatedSet g "in" (some NodeClass.query) "Refer" (g.edges_to t)) := rfl
      rw [hcalc] at hs
      injection hs
    subst hs2
    refine ⟨relatedSet g "out" (some NodeClass.table) "Refer" (g.edges_from q), rfl, ?_⟩
    rcases mem_relatedSet.mp hqs with ⟨e, he, hrel, hcl, _⟩
    have hfrom : g.from_node e = some q := by simpa [relatedNode] using hrel
    have hqid : q.id = e.from_node_id := (from_node_mem hfrom).2
    have het : e ∈ g.edges ∧ e.to_node_id = t.id := mem_edges_to.mp he
    apply mem_relatedSet.mpr
    refine ⟨e, mem_edges_from.mpr ⟨het.1, hqid.symm⟩, ?_, hcl, ?_⟩
    · show g.to_node e = some t
      unfold Graph.to_node
      rw [het.2]
      exact find?_id_eq_self hnd ht
    · simp [matchesRelatedType, isinstance, htc]

/-- Witness for C4 at the sample graph (`query_1` refers to `table_1`). -/
theorem refers_refered_inverse_w :
    (sampleGraph.nodes.map Node.id).Nodup ∧ sampleQuery ∈ sampleGraph.nodes ∧
    sampleTable ∈ sampleGraph.nodes ∧ sampleQuery.cls = NodeClass.query ∧
    sampleTable.cls = NodeClass.table ∧
    ((∃ s, Query.refers sampleGraph sampleQuery false = some s ∧ sampleTable ∈ s) ↔
      (∃ s, Table.refered sampleGraph sampleTable = some s ∧ sampleQuery ∈ s)) :=
  ⟨by decide, by decide, by decide, by decide, by decide,
    refers_refered_inverse sampleGraph sampleQuery sampleTable
      (by decide) (by decide) (by decide) (by decide) (by decide)⟩

/-- C5: the resolver fails with the invalid-direction error exactly when the
direction is neither "out" nor "in"; for a valid direction it always returns
a result set, and when no edge matches the class-name filter it returns the
empty set rather than an error. -/
theorem get_related_nodes_direction_check (g : Graph) (self : Node)
    (rt : Option NodeClass) (et : String) (d : String) :
    (¬ d = "out" ∧ ¬ d = "in" →
      Node.get_related_nodes g self d rt et =
        Except.error "direction must be \x27out\x27 or \x27in\x27") ∧
    (d = "out" ∨ d = "in" → ∃ s, Node.get_related_nodes g self d rt et = Except.ok s) ∧
    ((d = "out" ∨ d = "in") → (∀ e ∈ g.edges, ¬ e.className = et) →
      Node.get_related_nodes g self d rt et = Except.ok ∅) := by
  have hempty : ∀ edges, (∀ e ∈ edges, e ∈ g.edges) →
      (∀ e ∈ g.edges, ¬ e.className = et) → relatedSet g d rt et edges = ∅ := by
    intro edges hsub hno
    apply Finset.eq_empty_iff_forall_not_mem.mpr
    intro n hn
    rcases mem_relatedSet.mp hn with ⟨e, he, _, hcl, _⟩
    exact hno e (hsub e he) hcl
  refine ⟨?_, ?_, ?_⟩
  · rintro ⟨h1, h2⟩
    simp [Node.get_related_nodes, h1, h2]
  · rintro (rfl | rfl)
    · exact ⟨_, rfl⟩
    · exact ⟨_, rfl⟩
  · rintro (rfl | rfl) hno
    · have hcalc : Node.get_related_nodes g self "out" rt et =
          Except.ok (relatedSet g "out" rt et (g.edges_from self)) := rfl
      rw [hcalc, hempty _ (fun e he => (mem_edges_from.mp he).1) hno]
    · have hcalc : Node.get_related_nodes g self "in" rt et =
          Except.ok (relatedSet g "in" rt et (g.edges_to self)) := rfl
      rw [hcalc, hempty _ (fun e he => (mem_edges_to.mp he).1) hno]

/-- Witness for C5: direction "sideways" errors, direction "out" succeeds. -/
theorem get_related_nodes_direction_check_w :
    Node.get_related_nodes dirGraph dirNode "sideways" none "Refer" =
      Except.error "direction must be \x27out\x27 or \x27in\x27" ∧
    ∃ s, Node.get_related_nodes dirGraph dirNode "out" none "Refer" = Except.ok s :=
  ⟨(get_related_nodes_direction_check dirGraph dirNode none "Refer" "sideways").1
      ⟨by decide, by decide⟩,
    (get_related_nodes_direction_check dirGraph dirNode none "Refer" "out").2.1
      (Or.inl rfl)⟩

/-- C7 (code-bug evaluation): the concrete chain scenario holds — where `q2`
refers to `q1` and `q1` refers to table `t`, `q2.refers(recursive=false)` is
empty and `q2.refers(recursive=true)` is exactly `{t}`.  The general clause,
however, fails on the code: in `bareGraph` the query has no reference
(`Refer`) edge at all, so it references no Table directly or transitively,
yet recursive `refers` returns `{bareT}` rather than the empty set, because
the recursive branch follows outgoing edges of any class. -/
theorem refers_query_chain :
    (Query.refers chainGraph chainQ2 false = some ∅ ∧
      Query.refers chainGraph chainQ2 true = some {chainT}) ∧
    (∀ e ∈ bareGraph.edges, ¬ e.className = "Refer") ∧
    Query.refers bareGraph bareQ true = some {bareT} ∧
    Query.refers bareGraph bareQ true ≠ some ∅ := by
  refine ⟨⟨by decide, by decide⟩, by decide, by decide, by decide⟩

/-- C10: the resolver matches edges by exact dynamic class name: every
returned neighbor comes through an edge whose class name equals the
`edge_type` string; with the stored lowercase tag "refer" a graph of `Refer`
edges yields the empty set (while "Refer" yields the neighbor), and an edge
of a strict subtype of `Refer` (class name "ReferSub") is excluded under
`edge_type="Refer"`. -/
theorem get_related_nodes_classname_exact :
    (∀ (g : Graph) (self : Node) (d : String) (rt : Option NodeClass) (et : String)
      (s : Finset Node) (n : Node),
      Node.get_related_nodes g self d rt et = Except.ok s → n ∈ s →
      ∃ e, e ∈ g.edges ∧ e.className = et ∧
        (g.to_node e = some n ∨ g.from_node e = some n)) ∧
    Node.get_related_nodes lowerGraph lowerQ "out" none "refer" = Except.ok ∅ ∧
    Node.get_related_nodes lowerGraph lowerQ "out" none "Refer" = Except.ok {lowerT} ∧
    Node.get_related_nodes subGraph subQ "out" none "Refer" = Except.ok ∅ := by
  refine ⟨?_, by decide, by decide, by decide⟩
  intro g self d rt et s n hok hns
  unfold Node.get_related_nodes at hok
  by_cases h1 : (d == "out") = true
  · rw [if_pos h1] at hok
    injection hok with hok2
    subst hok2
    rcases mem_relatedSet.mp hns with ⟨e, he, hrel, hcl, _⟩
    have hd : d = "out" := by simpa using h1
    refine ⟨e, (mem_edges_from.mp he).1, hcl, Or.inl ?_⟩
    simpa [relatedNode, hd] using hrel
  · rw [if_neg h1] at hok
    by_cases h2 : (d == "in") = true
    · rw [if_pos h2] at hok
      injection hok with hok2
      subst hok2
      rcases mem_relatedSet.mp hns with ⟨e, he, hrel, hcl, _⟩
      have hd : d = "in" := by simpa using h2
      refine ⟨e, (mem_edges_to.mp he).1, hcl, Or.inr ?_⟩
      simpa [relatedNode, hd] using hrel
    · rw [if_neg h2] at hok
      cases hok

/-- Witness for C10's general part at the graph with one `Refer` edge. -/
theorem get_related_nodes_classname_exact_w :
    Node.get_related_nodes lowerGraph lowerQ "out" none "Refer" = Except.ok {lowerT} ∧
    lowerT ∈ ({lowerT} : Finset Node) ∧
    ∃ e, e ∈ lowerGraph.edges ∧ e.className = "Refer" ∧
      (lowerGraph.to_node e = some lowerT ∨ lowerGraph.from_node e = some lowerT) :=
  ⟨by decide, by decide,
    get_related_nodes_classname_exact.1 lowerGraph lowerQ "out" none "Refer" {lowerT} lowerT
      (by decide) (by decide)⟩

end Models
